import Mathlib

/-!
Verification of the subtitle-autoloader pipeline (`src/background/background.ts`,
the build entry named in `vite.config.ts`).  The TypeScript source is shallowly
embedded: pure functions become Lean functions on `List Char` / `String`,
network effects become oracle fields of a `World` structure, the module-level
mutable visited set becomes explicit state threading (plus a small operation
model for interleaved calls), and JavaScript exceptions become `Except`.
The three regular expressions of the candidate matcher are embedded as
continuation-passing matchers whose boolean result coincides with
`RegExp.test` (existence of a match at some position).
-/

namespace Kuraji

/-- Whitespace characters recognised by the JavaScript `\s` class, `trim`
and the `/\s+/` runs used by the variant generator (ASCII part plus NBSP;
the exotic Unicode space code points never occur in the claims). -/
def isSpaceJS (c : Char) : Bool :=
  c = ' ' || c = '\t' || c = '\n' || c = '\r' || c = '\x0b' || c = '\x0c' || c = ' '

/-- Model of `String.prototype.trim`: drop JS whitespace from both ends. -/
def trimChars (cs : List Char) : List Char :=
  ((cs.dropWhile isSpaceJS).reverse.dropWhile isSpaceJS).reverse

/-- Case-insensitive comparison of an input character against a lowercase
pattern letter, as performed under the `/i` regex flag. -/
def lowerEq (c pat : Char) : Bool :=
  c.toLower = pat

/-- Boolean check that `p` is a leading segment of `cs`. -/
def isPrefixB : List Char → List Char → Bool
  | [], _ => true
  | _ :: _, [] => false
  | p :: ps, c :: cs => p = c && isPrefixB ps cs

/-- Model of `videoTitle.split(" - ")`: left-to-right scan for the literal
three-character separator, non-overlapping occurrences. -/
def splitSepAux : List Char → List Char → List (List Char)
  | ' ' :: '-' :: ' ' :: rest, acc => acc.reverse :: splitSepAux rest []
  | c :: rest, acc => splitSepAux rest (c :: acc)
  | [], acc => [acc.reverse]

/-- Split on the literal `" - "` delimiter. -/
def splitSep (cs : List Char) : List (List Char) :=
  splitSepAux cs []

/-- Model of `name.split(".")` (single-character separator). -/
def splitOnChar (sep : Char) : List Char → List Char → List (List Char)
  | c :: rest, acc =>
    if c = sep then acc.reverse :: splitOnChar sep rest []
    else splitOnChar sep rest (c :: acc)
  | [], acc => [acc.reverse]

/-- Scan for the closing parenthesis of a lazy `\(.*?\)` match: the first
`)` after the opening one, failing on a line terminator (the `.` class does
not match newlines).  Returns the remainder after the `)`. -/
def findClose : List Char → Option (List Char)
  | [] => none
  | c :: rest =>
    if c = ')' then some rest
    else if c = '\n' || c = '\r' then none
    else findClose rest

/-- Fuel-indexed body of `stripParens`; the fuel is only a structural
termination device (it starts at the input length and `findClose` returns a
suffix, so the fuel-exhausted branch is unreachable). -/
def stripParensF : Nat → List Char → List Char
  | _, [] => []
  | 0, cs => cs
  | fuel + 1, c :: rest =>
    if c = '(' then
      match findClose rest with
      | some rest' => stripParensF fuel rest'
      | none => c :: stripParensF fuel rest
    else
      c :: stripParensF fuel rest

/-- Model of `s.replace(/\(.*?\)/g, "")`: remove each lazily matched
parenthesis pair, keeping an unmatched `(` and resuming the scan after it,
exactly as the regex engine advances on a failed attempt. -/
def stripParens (cs : List Char) : List Char :=
  stripParensF cs.length cs

/-- Decimal digit run at the head of the input (`\d+` with maximal munch,
which is deterministic here because the following pattern element can never
consume a digit). -/
def spanDigits (cs : List Char) : List Char × List Char :=
  (cs.takeWhile Char.isDigit, cs.dropWhile Char.isDigit)

/-- Value of a decimal digit list, as `parseInt` computes it. -/
def natOfDigits (ds : List Char) : Nat :=
  ds.foldl (fun n c => n * 10 + (c.toNat - '0'.toNat)) 0

/-- Separator class `[\s:]` appearing between the season and episode groups. -/
def isSepSC (c : Char) : Bool :=
  isSpaceJS c || c = ':'

/-- Attempt of `/S(\d+)[\s:]*E(\d+)/i` anchored at the head of the input,
returning the two captured numbers.  Greedy `\d+` and `[\s:]*` are
deterministic because the elements that follow them cannot match a digit
or a separator respectively. -/
def seMatchAt (cs : List Char) : Option (Nat × Nat) :=
  match cs with
  | [] => none
  | c :: rest =>
    if lowerEq c 's' then
      match spanDigits rest with
      | ([], _) => none
      | (d :: ds, r1) =>
        match r1.dropWhile isSepSC with
        | [] => none
        | e :: r3 =>
          if lowerEq e 'e' then
            match spanDigits r3 with
            | ([], _) => none
            | (d2 :: ds2, _) => some (natOfDigits (d :: ds), natOfDigits (d2 :: ds2))
          else none
    else none

/-- Attempt of `/\((\d{4})\)/` anchored at the head of the input: an opening
parenthesis, exactly four digits, a closing parenthesis. -/
def yearAt (cs : List Char) : Option Nat :=
  match cs with
  | '(' :: a :: b :: c :: d :: ')' :: _ =>
    if a.isDigit && b.isDigit && c.isDigit && d.isDigit then
      some (natOfDigits [a, b, c, d])
    else none
  | _ => none

/-- Leftmost-match search: try the anchored attempt at every position from
left to right, as the regex engine does for an unanchored pattern. -/
def scanFirst (p : List Char → Option α) : List Char → Option α
  | [] => p []
  | c :: rest =>
    match p (c :: rest) with
    | some v => some v
    | none => scanFirst p rest

/-- Parsed form of a display title (interface `ParsedTitle`). -/
structure ParsedTitle where
  title : String
  season : Option Nat
  episode : Option Nat
  episodeTitle : Option String
  year : Option Nat
deriving DecidableEq, Repr

/-- Join segments back with the literal separator, as `parts.slice(i).join(" - ")`. -/
def joinSep (sep : List Char) : List (List Char) → List Char
  | [] => []
  | [p] => p
  | p :: q :: rest => p ++ sep ++ joinSep sep (q :: rest)

/-- Embedding of `parseVideoTitle` (background.ts lines 58‑78): extract a
parenthesised year and an `S<digits>[\s:]*E<digits>` pair, split on
`" - "` into trimmed non-empty segments, strip parenthesised substrings
from the first segment to obtain the main title (falling back to the
trimmed input when that is empty or there is no segment), and derive the
episode title from the remaining segments. -/
def parseVideoTitle (videoTitle : String) : ParsedTitle :=
  let cs := videoTitle.toList
  let year := scanFirst yearAt cs
  let se := scanFirst seMatchAt cs
  let parts := ((splitSep cs).map trimChars).filter (· ≠ [])
  let mainTitle :=
    match parts with
    | [] => trimChars cs
    | p0 :: _ =>
      let m := trimChars (stripParens p0)
      if m = [] then trimChars cs else m
  let episodeTitle :=
    if se.isSome && decide (parts.length > 2) then
      some (trimChars (stripParens (joinSep [' ', '-', ' '] (parts.drop 2))))
    else if decide (parts.length > 1) then
      some (trimChars (stripParens (joinSep [' ', '-', ' '] (parts.drop 1))))
    else none
  { title := String.mk mainTitle
    season := se.map (·.1)
    episode := se.map (·.2)
    episodeTitle := episodeTitle.map String.mk
    year := year }

example : parseVideoTitle "Anime Name (2021) - S1E2 - The Beginning" =
    { title := "Anime Name", season := some 1, episode := some 2,
      episodeTitle := some "The Beginning", year := some 2021 } := by decide

example : parseVideoTitle "Anime Name - The Beginning" =
    { title := "Anime Name", season := none, episode := none,
      episodeTitle := some "The Beginning", year := none } := by decide

example : (parseVideoTitle "a (x)- b").title = "a - b" := by decide

example : (parseVideoTitle "a - b").title = "a" := by decide

/-!
Continuation-passing embeddings of the three matcher regexes.  A combinator
takes the continuation for the rest of the pattern; disjunction over all
continuation call sites gives exactly the backtracking search of the regex
engine, and `anySuffix` gives the unanchored scan of `RegExp.test`.
-/

/-- Lookahead `(?!\d)`: the input must not continue with a digit. -/
def notDigitAhead : List Char → Bool
  | [] => true
  | c :: _ => !c.isDigit

/-- Single case-insensitive pattern letter. -/
def litCIc (pat : Char) (k : List Char → Bool) : List Char → Bool
  | [] => false
  | c :: rest => lowerEq c pat && k rest

/-- Literal character sequence (the interpolated decimal number). -/
def litList : List Char → (List Char → Bool) → List Char → Bool
  | [], k, cs => k cs
  | _ :: _, _, [] => false
  | d :: ds, k, c :: rest => c = d && litList ds k rest

/-- Zero or more `0` characters (`0*`), trying every split. -/
def zerosC (k : List Char → Bool) : List Char → Bool
  | [] => k []
  | c :: rest => k (c :: rest) || (c = '0' && zerosC k rest)

/-- Continuation part of `\d+` after the first digit. -/
def digitsMoreC (k : List Char → Bool) : List Char → Bool
  | [] => k []
  | c :: rest => k (c :: rest) || (c.isDigit && digitsMoreC k rest)

/-- One or more digits (`\d+`), trying every split. -/
def digitsPlusC (k : List Char → Bool) : List Char → Bool
  | [] => false
  | c :: rest => c.isDigit && digitsMoreC k rest

/-- Decimal digit characters of a number, as string interpolation renders it
(fuel-indexed only to keep the recursion structural). -/
def digitsOfF : Nat → Nat → List Char
  | 0, _ => []
  | fuel + 1, n =>
    if n < 10 then [Char.ofNat ('0'.toNat + n)]
    else digitsOfF fuel (n / 10) ++ [Char.ofNat ('0'.toNat + n % 10)]

/-- Decimal representation of a natural number. -/
def digitsOf (n : Nat) : List Char :=
  digitsOfF (n + 1) n

/-- Unanchored scan: does the anchored attempt succeed at some position? -/
def anySuffix (p : List Char → Bool) : List Char → Bool
  | [] => p []
  | c :: rest => p (c :: rest) || anySuffix p rest

/-- Anchored attempt of rule 1's regex
`S0*<season>E0*<episode>(?!\d)` under the `/i` flag. -/
def seHere (s e : Nat) : List Char → Bool :=
  litCIc 's' (zerosC (litList (digitsOf s)
    (litCIc 'e' (zerosC (litList (digitsOf e) notDigitAhead)))))

/-- Test of rule 1's regex against a file name (`regex.test(f.name)`). -/
def testSE (s e : Nat) (name : String) : Bool :=
  anySuffix (seHere s e) name.toList

/-- Tail of rule 2's regex: `0*<episode>(?!\d)`. -/
def epCore (e : Nat) : List Char → Bool :=
  zerosC (litList (digitsOf e) notDigitAhead)

/-- Anchored attempt of rule 2's regex `(?:S\d+E)?0*<episode>(?!\d)/i`:
either with the optional season group or without it. -/
def epHere (e : Nat) (cs : List Char) : Bool :=
  litCIc 's' (digitsPlusC (litCIc 'e' (epCore e))) cs || epCore e cs

/-- Test of rule 2's regex against a file name. -/
def testEp (e : Nat) (name : String) : Bool :=
  anySuffix (epHere e) name.toList

/-- Tail of rule 3's regex: the bare episode number and the lookahead. -/
def r3Core (n : Nat) : List Char → Bool :=
  litList (digitsOf n) notDigitAhead

/-- Anchored attempt of rule 3's regex `(?:S0*\d+)?(?:E0*)?<n>(?!\d)/i`. -/
def r3Here (n : Nat) (cs : List Char) : Bool :=
  (litCIc 's' (zerosC (digitsPlusC (fun cs2 =>
      litCIc 'e' (zerosC (r3Core n)) cs2 || r3Core n cs2))) cs) ||
  (litCIc 'e' (zerosC (r3Core n)) cs || r3Core n cs)

/-- Test of rule 3's regex against a file name. -/
def testR3 (n : Nat) (name : String) : Bool :=
  anySuffix (r3Here n) name.toList

/-- Substring test, as `String.prototype.includes`. -/
def containsSeq (needle cs : List Char) : Bool :=
  anySuffix (isPrefixB needle) cs

example : testSE 1 2 "Show S01E02.srt" = true := by decide

example : testSE 1 2 "Show S01E03.srt" = false := by decide

example : testEp 1 "Show E1.srt" = true := by decide

example : testEp 1 "Show E10.srt" = false := by decide

/-!
JSON values and the JavaScript property-access discipline used by
`lookupAnimeMetadata`: reading a property of `null` or `undefined` throws a
`TypeError` (modelled by `Except Unit`); reading a missing property of any
other value yields `undefined` (modelled by `none`).
-/

/-- Parsed JSON value (the result of `res.json()`). -/
inductive Json where
  | null
  | bool (b : Bool)
  | num (n : Int)
  | str (s : String)
  | arr (elems : List Json)
  | obj (fields : List (String × Json))

/-- Field lookup in a parsed object (keys are distinct after `JSON.parse`). -/
def lookupField : List (String × Json) → String → Option Json
  | [], _ => none
  | (k, v) :: rest, key => if k = key then some v else lookupField rest key

/-- Property access `j.key` on a JSON value: throws on `null`, yields the
field of an object, `undefined` for any other value. -/
def jsGet : Json → String → Except Unit (Option Json)
  | .null, _ => .error ()
  | .obj fs, key => .ok (lookupField fs key)
  | _, _ => .ok none

/-- Property access on a possibly-`undefined` value: throws on `undefined`. -/
def jsGetU : Option Json → String → Except Unit (Option Json)
  | none, _ => .error ()
  | some j, key => jsGet j key

/-- JavaScript truthiness of a possibly-`undefined` JSON value. -/
def jsTruthy : Option Json → Bool
  | none => false
  | some .null => false
  | some (.bool b) => b
  | some (.num n) => n != 0
  | some (.str s) => s != ""
  | some (.arr _) => true
  | some (.obj _) => true

/-- Collapse a field value to an optional string (JS `null`/`undefined` and
non-string values are all falsy to every downstream consumer). -/
def asOptStr : Option Json → Option String
  | some (.str s) => some s
  | _ => none

/-- Value of `media.synonyms || []` (the provider schema guarantees an array
of strings when the field is present). -/
def asSynonyms : Option Json → List String
  | some (.arr xs) => xs.filterMap (fun j => match j with | .str s => some s | _ => none)
  | _ => []

/-- Value of `media.idMal` as an optional number. -/
def asOptInt : Option Json → Option Int
  | some (.num n) => some n
  | _ => none

/-- Metadata record (interface `AnimeMetadata`); `{}` is all-absent. -/
structure AnimeMetadata where
  english : Option String := none
  romaji : Option String := none
  native : Option String := none
  synonyms : Option (List String) := none
  malId : Option Int := none
deriving DecidableEq, Repr

/-- Response of the AniList GraphQL POST: HTTP status plus a body that either
parses as JSON or does not (`none`, making `res.json()` reject). -/
structure MetaResponse where
  ok : Bool
  body : Option Json

/-- The optional chain `json.data?.Media` applied to the value of
`json.data`: a null or undefined `data` short-circuits to `undefined`,
otherwise the `Media` property is read. -/
def mediaOf (dataV : Option Json) : Except Unit (Option Json) :=
  match dataV with
  | none => .ok none
  | some .null => .ok none
  | some dj => jsGet dj "Media"

/-- Embedding of `lookupAnimeMetadata` (background.ts lines 107‑149): `{}` on
a non-2xx response or a falsy `json.data?.Media`; otherwise builds the record
from `media.title.english/romaji/native`, `media.synonyms || []` and
`media.idMal`.  Property accesses can throw, and nothing catches: a body that
is not JSON, a `null` top-level value, or a truthy `Media` without a `title`
object makes the whole promise reject. -/
def lookupAnimeMetadata (r : MetaResponse) : Except Unit AnimeMetadata :=
  if !r.ok then .ok {} else
  match r.body with
  | none => .error ()
  | some json =>
    match jsGet json "data" with
    | .error e => .error e
    | .ok dataV =>
      match mediaOf dataV with
      | .error e => .error e
      | .ok media =>
        if !jsTruthy media then .ok {} else
        match jsGetU media "title" with
        | .error e => .error e
        | .ok titleV =>
          match jsGetU titleV "english", jsGetU titleV "romaji", jsGetU titleV "native",
                jsGetU media "synonyms", jsGetU media "idMal" with
          | .ok en, .ok ro, .ok na, .ok syn, .ok mal =>
            .ok { english := asOptStr en, romaji := asOptStr ro, native := asOptStr na,
                  synonyms := some (asSynonyms syn), malId := asOptInt mal }
          | _, _, _, _, _ => .error ()

/-- Truthiness of an optional string field. -/
def strTruthy : Option String → Bool
  | some s => s != ""
  | none => false

/-- Condition `meta && (meta.english || meta.romaji || meta.native ||
(meta.synonyms?.length ?? 0) > 0)` guarding the whole crawl. -/
def hasAniListEntry (m : AnimeMetadata) : Bool :=
  strTruthy m.english || strTruthy m.romaji || strTruthy m.native ||
    decide ((match m.synonyms with | some l => l.length | none => 0) > 0)

/-!
Variant generation.
-/

/-- Replace every maximal whitespace run by one replacement character, as
`base.replace(/\s+/g, r)` (flag tracks being inside a run). -/
def collapseWSAux (r : Char) (inRun : Bool) : List Char → List Char
  | [] => []
  | c :: rest =>
    if isSpaceJS c then
      if inRun then collapseWSAux r true rest
      else r :: collapseWSAux r true rest
    else c :: collapseWSAux r false rest

/-- String form of the whitespace-run replacement. -/
def replWS (r : Char) (s : String) : String :=
  String.mk (collapseWSAux r false s.toList)

/-- Model of `s.toLowerCase()` (ASCII-faithful). -/
def lowerStr (s : String) : String :=
  String.mk (s.toList.map Char.toLower)

/-- Model of `s.trim()`. -/
def trimStr (s : String) : String :=
  String.mk (trimChars s.toList)

/-- Insertion into the candidate set, preserving first-insertion order as a
JavaScript `Set` does. -/
def insertVar (acc : List String) (v : String) : List String :=
  if acc.contains v then acc else acc ++ [v]

/-- One `add(s)` call of the variant generator: skipped entirely for a falsy
argument, otherwise insert the trimmed base, its three whitespace-collapsed
forms, its lowercase form, and (when longer than one character) the base
without its final character. -/
def addVariants (acc : List String) (s : String) : List String :=
  if s = "" then acc else
  let base := trimStr s
  let acc := insertVar acc base
  let acc := insertVar acc (replWS '+' base)
  let acc := insertVar acc (replWS '.' base)
  let acc := insertVar acc (replWS '_' base)
  let acc := insertVar acc (lowerStr base)
  if base.length > 1 then insertVar acc (String.mk base.toList.dropLast) else acc

/-- The `add` helper applied to an optional metadata field. -/
def addOptVariants (acc : List String) : Option String → List String
  | none => acc
  | some s => addVariants acc s

/-- Embedding of `generateTitleVariants` (background.ts lines 154‑182):
candidates from the parsed title, the three canonical titles and every
synonym, in first-insertion order. -/
def generateTitleVariants (parsed : ParsedTitle) (meta : AnimeMetadata) : List String :=
  let acc := addVariants [] parsed.title
  let acc := addOptVariants acc meta.english
  let acc := addOptVariants acc meta.romaji
  let acc := addOptVariants acc meta.native
  match meta.synonyms with
  | none => acc
  | some syns => syns.foldl addVariants acc

example : generateTitleVariants (parseVideoTitle "Show S1E2") {} =
    ["Show S1E2", "Show+S1E2", "Show.S1E2", "Show_S1E2", "show s1e2", "Show S1E"] := by decide

/-!
Repository crawler.  Network calls become oracle lookups in a `World`; every
provider request is recorded as an `Event`, giving both the "no crawl
happened" observations and the logical clock at which each await completes
(the clock after `k` events is `k`; the cancellation flag of a session is a
monotone function of that clock, since it is written once by a superseding
request at some await boundary).
-/

/-- Subtitle file value (interface `SubtitleFile`). -/
structure SubtitleFile where
  name : String
  url : String
deriving DecidableEq, Repr

/-- One entry of a GitHub directory listing: a file (with its
`download_url`) or a subdirectory (with its repo-relative `path`). -/
inductive Entry where
  | file (name url : String)
  | dir (path : String)
deriving DecidableEq, Repr

/-- One episode of the MAL episode index (`{number: ep.mal_id, title: ep.title}`;
the title can be `null` in the provider data). -/
structure Episode where
  number : Nat
  title : Option String
deriving DecidableEq, Repr

/-- Observable pipeline events, one per provider interaction.  `sleep` is in
the vocabulary so that the rate-limit-delay claim is expressible; the crawler
of `background.ts` never emits it. -/
inductive Event where
  | metaLookup
  | listing (dir : String)
  | episodePages (malId : Int)
  | fileFetch (url : String)
  | sleep (ms : Nat)
deriving DecidableEq, Repr

/-- Environment oracles: the AniList response per searched title, the GitHub
directory listings (`none` models a non-2xx response), the accumulated MAL
episode pages, the raw content behind a download URL, and the top hit of the
external `fast-fuzzy` searcher (threshold 0.7) over lowercased names. -/
structure World where
  metaFor : String → MetaResponse
  listing : String → Option (List Entry)
  episodesOf : Int → List Episode
  content : String → String
  fuzzy : List String → String → Option String

/-- Extension of a file name: `name.split(".").pop()?.toLowerCase()`. -/
def extOf (name : String) : Option String :=
  ((splitOnChar '.' name.toList []).getLast?).map (fun l => String.mk (l.map Char.toLower))

/-- Path of a subdirectory entry relative to the `subtitles/` root:
`item.path.replace(/^subtitles\//, "")` (anchored, at most one removal). -/
def stripSubtitlesRoot (path : String) : String :=
  if isPrefixB "subtitles/".toList path.toList then String.mk (path.toList.drop 10) else path

/-- Body of the crawler's `for (const item of data)` loop: keep `.srt` file
entries (an `.ass` entry is logged and skipped, any other extension is
skipped), and descend sequentially into each directory entry via `step`,
threading the visited set and concatenating files and traces in item order. -/
def crawlItems (step : String → List String → List SubtitleFile × List String × List Event) :
    List Entry → List String → List SubtitleFile × List String × List Event
  | [], vis => ([], vis, [])
  | .file name url :: rest, vis =>
    let (fs, v', tr) := crawlItems step rest vis
    if extOf name = some "srt" then (⟨name, url⟩ :: fs, v', tr) else (fs, v', tr)
  | .dir path :: rest, vis =>
    let (sub, v1, tr1) := step (stripSubtitlesRoot path) vis
    let (fs, v2, tr2) := crawlItems step rest v1
    (sub ++ fs, v2, tr1 ++ tr2)

/-- Embedding of `fetchGitHubSubtitlesSafe` (background.ts lines 188‑256).
The counter `rem` is `maxDepth + 1 - depth`, so `rem = 0` is exactly the
source guard `depth > maxDepth` (a top-level call has `depth = 0`,
`maxDepth = 4`, hence `rem = 5`).  A directory already in the visited set
returns empty immediately; otherwise it is marked visited before its listing
request, a non-2xx listing yields an empty branch, and items are processed
sequentially.  The visited set is threaded explicitly: within one top-level
call this coincides with the module-level `visitedDirs` (which is cleared at
the start of the call); the cross-call behaviour of that global is modelled
separately by `VisitOp` below. -/
def fetchGitHubSubtitlesSafe (w : World) :
    Nat → String → List String → List SubtitleFile × List String × List Event
  | 0, _, vis => ([], vis, [])
  | rem + 1, animeDir, vis =>
    if vis.contains animeDir then ([], vis, [])
    else
      match w.listing animeDir with
      | none => ([], animeDir :: vis, [.listing animeDir])
      | some items =>
        let (fs, v', tr) := crawlItems (fetchGitHubSubtitlesSafe w rem) items (animeDir :: vis)
        (fs, v', .listing animeDir :: tr)

/-- Truthiness of an optional number field (`0` is falsy). -/
def natTruthy : Option Nat → Bool
  | some n => n != 0
  | none => false

/-- Episode-index fetch (`getAllEpisodesMAL`): the `api.jikan.moe` pagination
loop is collapsed into one oracle call recorded as one event. -/
def getAllEpisodesMAL (w : World) (malId : Int) : List Episode × List Event :=
  (w.episodesOf malId, [.episodePages malId])

/-- Embedding of `matchSubtitleFile` (background.ts lines 261‑324): the
tie-break ladder — direct season+episode regex, episode-only regex,
episode-title lookup through the MAL index, fuzzy title search, first file.
Guards are JavaScript truthiness tests, so a season or episode of `0`
behaves exactly like an absent one. -/
def matchSubtitleFile (w : World) (files : List SubtitleFile) (parsed : ParsedTitle)
    (meta : AnimeMetadata) : Option SubtitleFile × List Event :=
  if files.isEmpty then (none, []) else
  let r1 : Option SubtitleFile :=
    match parsed.season, parsed.episode with
    | some s, some e =>
      if s != 0 && e != 0 then files.find? (fun f => testSE s e f.name) else none
    | _, _ => none
  match r1 with
  | some f => (some f, [])
  | none =>
  let r2 : Option SubtitleFile :=
    match parsed.episode with
    | some e =>
      if !natTruthy parsed.season && e != 0 then files.find? (fun f => testEp e f.name)
      else none
    | none => none
  match r2 with
  | some f => (some f, [])
  | none =>
  let fuzzyAndDefault : List Event → Option SubtitleFile × List Event := fun evs =>
    match w.fuzzy (files.map (fun f => lowerStr f.name)) (lowerStr parsed.title) with
    | some best =>
      match files.find? (fun f => lowerStr f.name = best) with
      | some fb => (some fb, evs)
      | none => (files.head?, evs)
    | none => (files.head?, evs)
  match parsed.episodeTitle, meta.malId with
  | some et, some mid =>
    if et != "" && mid != 0 then
      let (eps, evs) := getAllEpisodesMAL w mid
      if !eps.isEmpty then
        match eps.find? (fun ep =>
            match ep.title with
            | some tt => containsSeq (lowerStr et).toList (lowerStr tt).toList
            | none => false) with
        | some epM =>
          match files.find? (fun f => testR3 epM.number f.name) with
          | some f => (some f, evs)
          | none => fuzzyAndDefault evs
        | none => fuzzyAndDefault evs
      else fuzzyAndDefault evs
    else fuzzyAndDefault []
  | _, _ => fuzzyAndDefault []

/-!
Top-level pipeline.
-/

/-- Result envelope `{ text, fileName }` returned to the caller. -/
structure Result where
  text : String
  fileName : Option String
deriving DecidableEq, Repr

/-- The uniform empty result. -/
def emptyResult : Result :=
  { text := "", fileName := none }

/-- The fixed no-record result returned when AniList has no entry. -/
def kurajiResult : Result :=
  { text := "Kuraji -「クラジ」", fileName := none }

/-- The `for (const variant of variants)` loop of `fetchSubtitle`.  `clock`
counts completed provider events of this call (the flag of the owning
session is read as `cancelAt clock`, and this is the only place the flag is
read: there is no check inside the crawl recursion and none before the final
file fetch).  The visited set persists across variants of one call. -/
def variantLoop (w : World) (cancelAt : Nat → Bool) (parsed : ParsedTitle)
    (meta : AnimeMetadata) : List String → Nat → List String → Result × List Event
  | [], _, _ => (emptyResult, [])
  | v :: rest, clock, vis =>
    if cancelAt clock then (emptyResult, []) else
    let (files, vis', tr) := fetchGitHubSubtitlesSafe w 5 v vis
    if files.isEmpty then
      let (r, tr2) := variantLoop w cancelAt parsed meta rest (clock + tr.length) vis'
      (r, tr ++ tr2)
    else
      match matchSubtitleFile w files parsed meta with
      | (some f, trM) =>
        ({ text := w.content f.url, fileName := some f.name }, tr ++ trM ++ [.fileFetch f.url])
      | (none, trM) =>
        let (r, tr2) :=
          variantLoop w cancelAt parsed meta rest (clock + tr.length + trM.length) vis'
        (r, tr ++ trM ++ tr2)

/-- Embedding of `fetchSubtitle` (background.ts lines 341‑372): clear the
visited set (the call starts from an empty one), parse the title, look up
metadata (an exception propagates), return the fixed `kurajiResult` when
AniList has no entry, and otherwise try each variant in order. -/
def fetchSubtitle (w : World) (cancelAt : Nat → Bool) (videoTitle : String) :
    Except Unit Result × List Event :=
  let parsed := parseVideoTitle videoTitle
  match lookupAnimeMetadata (w.metaFor parsed.title) with
  | .error e => (.error e, [.metaLookup])
  | .ok meta =>
    if !hasAniListEntry meta then (.ok kurajiResult, [.metaLookup])
    else
      let (res, tr) :=
        variantLoop w cancelAt parsed meta (generateTitleVariants parsed meta) 1 []
      (.ok res, .metaLookup :: tr)

/-!
Request orchestrator (the message handler, background.ts lines 378‑408).
Session contexts are given identities so that "the previous context is
marked cancelled and abandoned" is expressible; the debounce record is the
pair `(lastTitle, lastTimestamp)`.
-/

/-- Orchestrator state: the process-wide debounce record, the map from tab id
to the identity of its active context, the set of context identities whose
`cancelled` flag has been set, and the next fresh identity. -/
structure OrchState where
  lastTitle : String
  lastTimestamp : Int
  active : List (Nat × Nat)
  cancelledIds : List Nat
  nextId : Nat
deriving DecidableEq, Repr

/-- Map lookup in the `activeSearches` association list. -/
def activeLookup : List (Nat × Nat) → Nat → Option Nat
  | [], _ => none
  | (k, v) :: rest, key => if k = key then some v else activeLookup rest key

/-- Map update in the `activeSearches` association list. -/
def activeSet : List (Nat × Nat) → Nat → Nat → List (Nat × Nat)
  | [], key, v => [(key, v)]
  | (k, w) :: rest, key, v =>
    if k = key then (k, v) :: rest else (k, w) :: activeSet rest key v

/-- Outcome of the synchronous head of `handleMessage` for a `GET_SUBS`
message: either the request is debounced (state untouched, empty result,
no work started), or it is accepted with the debounce record updated, the
previous context of the tab (if any) marked cancelled, and a fresh context
installed. -/
inductive Admission where
  | debounced
  | accepted (ctxId : Nat)
deriving DecidableEq, Repr

/-- Embedding of the debounce-and-supersede head of `handleMessage`
(background.ts lines 389‑400): reject when the incoming title equals the
most recently accepted title and less than `DEBOUNCE_MS = 1000` have
elapsed; otherwise update `lastRequest`, set the previous context's
`cancelled` flag and install a fresh context for the tab. -/
def admitRequest (s : OrchState) (title : String) (tabId : Nat) (now : Int) :
    OrchState × Admission :=
  if title = s.lastTitle ∧ now - s.lastTimestamp < 1000 then
    (s, .debounced)
  else
    let cancelled :=
      match activeLookup s.active tabId with
      | some prevId => prevId :: s.cancelledIds
      | none => s.cancelledIds
    ({ lastTitle := title
       lastTimestamp := now
       active := activeSet s.active tabId s.nextId
       cancelledIds := cancelled
       nextId := s.nextId + 1 }, .accepted s.nextId)

/-- Embedding of `handleMessage` for a `GET_SUBS` message: the admission
step, then (when accepted) the pipeline run for the new context, whose flag
over the run is supplied by the environment as `cancelAt`, and the final
`context.cancelled` re-check that discards a superseded result.  The
returned events are empty exactly when no pipeline work was started. -/
def handleGetSubs (w : World) (s : OrchState) (title : String) (tabId : Nat)
    (now : Int) (cancelAt : Nat → Bool) :
    OrchState × Except Unit Result × List Event :=
  match admitRequest s title tabId now with
  | (s', .debounced) => (s', .ok emptyResult, [])
  | (s', .accepted _) =>
    match fetchSubtitle w cancelAt title with
    | (.error e, tr) => (s', .error e, tr)
    | (.ok r, tr) =>
      if cancelAt tr.length then (s', .ok emptyResult, tr)
      else ({ s' with active := s'.active.filter (fun p => p.1 != tabId) }, .ok r, tr)

/-!
The module-level visited set shared by every top-level call
(background.ts line 53 `const visitedDirs = new Set<string>()`, cleared at
line 346, tested and extended at lines 194‑198).  Concurrent in-flight calls
interleave at await boundaries; each atomic operation on the global set is
either one call's initial `clear()` or one `has`/`add` pair performed by one
call's crawl on one directory key.  `runVisits` folds such an operation
sequence, logging for every visit whether the listing request was actually
issued (`true`) or the directory was skipped as already visited (`false`). -/
inductive VisitOp where
  | clear (session : Nat)
  | visit (session : Nat) (dir : String)
deriving DecidableEq, Repr

/-- Fold of an interleaved operation sequence over the shared visited set,
producing the final set and the per-visit log `(session, dir, issued)`. -/
def runVisits (set : List String) : List VisitOp → List String × List (Nat × String × Bool)
  | [] => (set, [])
  | .clear _ :: rest => runVisits [] rest
  | .visit sid dir :: rest =>
    if set.contains dir then
      let (s', log) := runVisits set rest
      (s', (sid, dir, false) :: log)
    else
      let (s', log) := runVisits (dir :: set) rest
      (s', (sid, dir, true) :: log)

instance {ε α : Type _} [DecidableEq ε] [DecidableEq α] : DecidableEq (Except ε α) := fun a b =>
  match a, b with
  | .error x, .error y =>
    if h : x = y then isTrue (by subst h; rfl) else isFalse (fun hc => h (by injection hc))
  | .ok x, .ok y =>
    if h : x = y then isTrue (by subst h; rfl) else isFalse (fun hc => h (by injection hc))
  | .error _, .ok _ => isFalse (fun hc => Except.noConfusion hc)
  | .ok _, .error _ => isFalse (fun hc => Except.noConfusion hc)

/-- World used by several witnesses: a single AniList entry named `Show`,
a directory tree with one matching file, and a two-subdirectory tree under
`A` for crawl-order observations. -/
def wTest : World :=
  { metaFor := fun _ => { ok := true, body := some (.obj [("data", .obj [("Media",
      .obj [("title", .obj [("english", .str "Show")])])])]) }
    listing := fun d =>
      if d = "Show S01E02" then some [.file "Show S01E02.srt" "u1"]
      else if d = "A" then some [.dir "subtitles/A/s1", .dir "subtitles/A/s2"]
      else if d = "A/s1" then some [.file "ep1.srt" "v1"]
      else if d = "A/s2" then some []
      else none
    episodesOf := fun _ => []
    content := fun _ => "SUBS"
    fuzzy := fun _ _ => none }

example : lookupAnimeMetadata (wTest.metaFor "x") =
    .ok { english := some "Show", synonyms := some [] } := by decide

example : fetchGitHubSubtitlesSafe wTest 5 "A" [] =
    ([⟨"ep1.srt", "v1"⟩], ["A/s2", "A/s1", "A"],
      [.listing "A", .listing "A/s1", .listing "A/s2"]) := by decide

example : fetchSubtitle wTest (fun _ => false) "Show S01E02" =
    (.ok { text := "SUBS", fileName := some "Show S01E02.srt" },
      [.metaLookup, .listing "Show S01E02", .fileFetch "u1"]) := by decide

/-!
Helper lemmas about trimming and splitting, used for the title-parser claim.
-/

theorem toList_mk (l : List Char) : (String.mk l).toList = l := rfl

theorem mk_toList (s : String) : String.mk s.toList = s := by
  cases s
  rfl

/-- The head of the list (if any) fails the predicate. -/
def headFails (p : Char → Bool) : List Char → Bool
  | [] => true
  | c :: _ => !p c

theorem dropWhile_eq_self_of_headFails (p : Char → Bool) (cs : List Char)
    (h : headFails p cs = true) : cs.dropWhile p = cs := by
  cases cs with
  | nil => rfl
  | cons c rest =>
    simp only [headFails, Bool.not_eq_true'] at h
    simp [List.dropWhile_cons, h]

theorem headFails_dropWhile (p : Char → Bool) (cs : List Char) :
    headFails p (cs.dropWhile p) = true := by
  induction cs with
  | nil => rfl
  | cons c rest ih =>
    by_cases h : p c = true
    · simp [List.dropWhile_cons, h, ih]
    · simp only [Bool.not_eq_true] at h
      simp [List.dropWhile_cons, h, headFails]

theorem exists_append_dropWhile (p : Char → Bool) (cs : List Char) :
    ∃ t, cs = t ++ cs.dropWhile p := by
  induction cs with
  | nil => exact ⟨[], rfl⟩
  | cons c rest ih =>
    by_cases h : p c = true
    · obtain ⟨t, ht⟩ := ih
      exact ⟨c :: t, by simp [List.dropWhile_cons, h]; exact ht⟩
    · simp only [Bool.not_eq_true] at h
      exact ⟨[], by simp [List.dropWhile_cons, h]⟩

theorem trimChars_trimChars (cs : List Char) : trimChars (trimChars cs) = trimChars cs := by
  unfold trimChars
  have hB : headFails isSpaceJS ((cs.dropWhile isSpaceJS).reverse.dropWhile isSpaceJS) = true :=
    headFails_dropWhile _ _
  have hA : headFails isSpaceJS (cs.dropWhile isSpaceJS) = true := headFails_dropWhile _ _
  obtain ⟨t, ht⟩ := exists_append_dropWhile isSpaceJS (cs.dropWhile isSpaceJS).reverse
  have hA' : cs.dropWhile isSpaceJS =
      ((cs.dropWhile isSpaceJS).reverse.dropWhile isSpaceJS).reverse ++ t.reverse := by
    have := congrArg List.reverse ht
    rw [List.reverse_reverse, List.reverse_append] at this
    exact this
  have hBrev : headFails isSpaceJS
      ((cs.dropWhile isSpaceJS).reverse.dropWhile isSpaceJS).reverse = true := by
    cases hXr : ((cs.dropWhile isSpaceJS).reverse.dropWhile isSpaceJS).reverse with
    | nil => rfl
    | cons x xs =>
      rw [hXr] at hA'
      rw [hA'] at hA
      simpa [headFails] using hA
  rw [dropWhile_eq_self_of_headFails _ _ hBrev, List.reverse_reverse,
    dropWhile_eq_self_of_headFails _ _ hB]

theorem splitSepAux_of_no_sep (cs : List Char) : ∀ acc,
    containsSeq [' ', '-', ' '] cs = false → splitSepAux cs acc = [acc.reverse ++ cs] := by
  induction cs with
  | nil => intro acc _; simp [splitSepAux]
  | cons c rest ih =>
    intro acc h
    simp only [containsSeq, anySuffix, Bool.or_eq_false_iff] at h
    obtain ⟨h1, h2⟩ := h
    rw [splitSepAux.eq_def]
    split
    · next rest3 heq =>
      exfalso
      injection heq with hc hrest
      subst hc
      subst hrest
      simp [isPrefixB] at h1
    · next c' rest' hmis heq =>
      injection heq with hcs hacc
      subst hcs
      subst hacc
      rw [ih _ h2]
      simp
    · next heq => exact absurd heq (by simp)

theorem splitSep_of_no_sep (cs : List Char) (h : containsSeq [' ', '-', ' '] cs = false) :
    splitSep cs = [cs] := by
  have := splitSepAux_of_no_sep cs [] h
  simpa [splitSep] using this

theorem parseVideoTitle_title_eq (t : String) :
    (parseVideoTitle t).title = String.mk (
      match ((splitSep t.toList).map trimChars).filter (· ≠ []) with
      | [] => trimChars t.toList
      | p0 :: _ =>
        if trimChars (stripParens p0) = [] then trimChars t.toList
        else trimChars (stripParens p0)) := rfl

theorem parseVideoTitle_title_trimmed (t : String) :
    trimChars (parseVideoTitle t).title.toList = (parseVideoTitle t).title.toList := by
  rw [parseVideoTitle_title_eq, toList_mk]
  cases hp : ((splitSep t.toList).map trimChars).filter (· ≠ []) with
  | nil => simp [trimChars_trimChars]
  | cons p0 rest =>
    by_cases hm : trimChars (stripParens p0) = []
    · simp [hm, trimChars_trimChars]
    · simp [hm, trimChars_trimChars]

/-- C10 counterexample: the claim's idempotence hypothesis (parsed mainTitle
free of season/episode/year patterns) is not sufficient.  For the input
`"a (x)- b"`, stripping the parenthesised substring from the single segment
synthesises a brand-new `" - "` delimiter: the parsed main title is
`"a - b"`, which contains no season/episode or year pattern, yet re-parsing
it splits at the new delimiter and returns `"a"`. -/
theorem c10_counterexample :
    (parseVideoTitle "a (x)- b").title = "a - b" ∧
    scanFirst seMatchAt "a - b".toList = none ∧
    scanFirst yearAt "a - b".toList = none ∧
    (parseVideoTitle "a - b").title = "a" ∧
    "a" ≠ "a - b" := by decide

/-- C10 (amended): `parseVideoTitle` is a total function of its input string
(by construction of the embedding), and re-parsing the parsed `mainTitle` is
the identity on the title provided the parsed `mainTitle` additionally
contains no `" - "` delimiter and is a fixed point of parenthesis-pair
stripping; without those two extra conditions paren stripping can
synthesise a new delimiter (see the counterexample). -/
theorem c10_parser_idempotence (t : String)
    (hse : scanFirst seMatchAt (parseVideoTitle t).title.toList = none)
    (hyr : scanFirst yearAt (parseVideoTitle t).title.toList = none)
    (hsep : containsSeq [' ', '-', ' '] (parseVideoTitle t).title.toList = false)
    (hpar : stripParens (parseVideoTitle t).title.toList = (parseVideoTitle t).title.toList) :
    (parseVideoTitle (parseVideoTitle t).title).title = (parseVideoTitle t).title := by
  have htrim : trimChars (parseVideoTitle t).title.toList = (parseVideoTitle t).title.toList :=
    parseVideoTitle_title_trimmed t
  have hsplit : splitSep (parseVideoTitle t).title.toList = [(parseVideoTitle t).title.toList] :=
    splitSep_of_no_sep _ hsep
  have hmk : String.mk (parseVideoTitle t).title.toList = (parseVideoTitle t).title :=
    mk_toList _
  rw [parseVideoTitle_title_eq (parseVideoTitle t).title, hsplit]
  simp only [List.map]
  rw [htrim]
  by_cases hnil : (parseVideoTitle t).title.toList = []
  · rw [hnil] at hmk ⊢
    simpa using hmk
  · have hnil' : (parseVideoTitle t).title.data ≠ [] := hnil
    have hfil : List.filter (fun x => decide (x ≠ [])) [(parseVideoTitle t).title.toList] =
        [(parseVideoTitle t).title.toList] := by
      simp [List.filter, hnil']
    rw [hfil]
    simp only [hpar, htrim]
    simp [hnil]

/-- C10 witness: a plain two-word title satisfies all hypotheses and
re-parses to itself. -/
theorem c10_witness :
    (parseVideoTitle (parseVideoTitle "Hello World").title).title =
      (parseVideoTitle "Hello World").title :=
  c10_parser_idempotence "Hello World" (by decide) (by decide) (by decide) (by decide)

/-- World whose metadata provider answers every query with a non-2xx
response, so every lookup yields the empty metadata record. -/
def wC1 : World :=
  { metaFor := fun _ => { ok := false, body := none }
    listing := fun _ => none
    episodesOf := fun _ => []
    content := fun _ => ""
    fuzzy := fun _ _ => none }

/-- C1 counterexample: when the metadata lookup returns the empty record the
pipeline does skip the crawl, but the result it returns is the fixed
`"Kuraji -「クラジ」"` text — not the empty-text sentinel the claim states. -/
theorem c1_counterexample :
    fetchSubtitle wC1 (fun _ => false) "X" = (.ok kurajiResult, [Event.metaLookup]) ∧
    kurajiResult.text ≠ "" := by decide

/-- C1 (amended): for every request whose metadata lookup returns a record
with no truthy english/romaji/native title and no synonyms, `fetchSubtitle`
returns the fixed no-record result `{ text := "Kuraji -「クラジ」",
fileName := none }` immediately: the event trace is the single metadata
lookup, so no repository listing is ever requested. -/
theorem c1_empty_meta_shortcircuit (w : World) (cancelAt : Nat → Bool) (t : String)
    (m : AnimeMetadata)
    (hlook : lookupAnimeMetadata (w.metaFor (parseVideoTitle t).title) = .ok m)
    (hempty : hasAniListEntry m = false) :
    fetchSubtitle w cancelAt t = (.ok kurajiResult, [Event.metaLookup]) := by
  unfold fetchSubtitle
  simp only [hlook]
  simp [hempty]

/-- C1 witness: a concrete empty-metadata world. -/
theorem c1_witness :
    fetchSubtitle wC1 (fun _ => false) "Y" = (.ok kurajiResult, [Event.metaLookup]) :=
  c1_empty_meta_shortcircuit wC1 (fun _ => false) "Y" {} (by decide) (by decide)

/-- C2 counterexample: the cancellation flag becomes true at clock 2, i.e.
after the variant's listing request completes and before the final file
fetch (the third event), yet the pipeline performs the fetch and returns the
non-empty fetched result — there is no cancellation check before the final
fetch (nor inside the crawl recursion), only one per variant before its
crawl. -/
theorem c2_counterexample :
    fetchSubtitle wTest (fun n => decide (2 ≤ n)) "Show S01E02" =
      (.ok { text := "SUBS", fileName := some "Show S01E02.srt" },
        [Event.metaLookup, Event.listing "Show S01E02", Event.fileFetch "u1"]) ∧
    (fun n => decide (2 ≤ n)) 2 = true ∧
    ({ text := "SUBS", fileName := some "Show S01E02.srt" } : Result) ≠ emptyResult := by
  decide

/-- C2 (amended): the cancelled flag is read exactly once per variant
iteration, immediately before that variant's crawl; if the flag is already
true at the first read (clock 1, right after the metadata lookup), the
pipeline returns the empty result without issuing any further request.  No
check happens inside the crawl recursion or before the final fetch (see the
counterexample). -/
theorem c2_cancel_checked_per_variant (w : World) (cancelAt : Nat → Bool) (t : String)
    (m : AnimeMetadata)
    (hlook : lookupAnimeMetadata (w.metaFor (parseVideoTitle t).title) = .ok m)
    (hentry : hasAniListEntry m = true)
    (hc : cancelAt 1 = true) :
    fetchSubtitle w cancelAt t = (.ok emptyResult, [Event.metaLookup]) := by
  unfold fetchSubtitle
  simp only [hlook]
  simp only [hentry, Bool.not_true, Bool.false_eq_true, if_false]
  cases hv : generateTitleVariants (parseVideoTitle t) m with
  | nil => simp [variantLoop]
  | cons v rest => simp [variantLoop, hc]

/-- C2 witness: flag already set at the first check. -/
theorem c2_witness :
    fetchSubtitle wTest (fun _ => true) "Show S01E02" =
      (.ok emptyResult, [Event.metaLookup]) :=
  c2_cancel_checked_per_variant wTest (fun _ => true) "Show S01E02"
    { english := some "Show", synonyms := some [] } (by decide) (by decide) rfl

/-- C3 counterexample: `visitedDirs` is one module-level set shared by all
calls.  Interleaved at await boundaries — call 1 clears, call 2 clears, call
2 crawls directory `X`, call 1 reaches `X` — call 1's visit of `X` is
skipped (`issued = false`) although call 1 never recorded `X`: a key
recorded by one top-level call affects whether another call crawls it. -/
theorem c3_counterexample :
    runVisits [] [VisitOp.clear 1, VisitOp.clear 2, VisitOp.visit 2 "X", VisitOp.visit 1 "X"] =
      (["X"], [(2, "X", true), (1, "X", false)]) ∧
    (1, "X", false) ∈ [(2, "X", true), (1, "X", false)] ∧
    (1, "X", true) ∉ [(2, "X", true), (1, "X", false)] := by decide

theorem runVisits_append (s : List String) (l1 l2 : List VisitOp) :
    runVisits s (l1 ++ l2) =
      ((runVisits (runVisits s l1).1 l2).1,
        (runVisits s l1).2 ++ (runVisits (runVisits s l1).1 l2).2) := by
  induction l1 generalizing s with
  | nil => simp [runVisits]
  | cons op rest ih =>
    cases op with
    | clear sid => simp [runVisits, ih]
    | visit sid dir =>
      by_cases h : dir ∈ s <;> simp [runVisits, h, ih]

/-- C3 (amended): the visited set is not fresh per call — it is one shared
module-level set that each call merely clears on entry.  Consequently a
top-level call whose operations run without interleaving (its `clear`
followed contiguously by its visits) is isolated: its visit outcomes are
those computed from the empty set, whatever ran before.  Interleaved
concurrent calls, however, do observe each other's keys (counterexample). -/
theorem c3_cleared_not_fresh (s : List String) (opsA opsB : List VisitOp) (sid : Nat) :
    (runVisits s (opsA ++ VisitOp.clear sid :: opsB)).2 =
      (runVisits s opsA).2 ++ (runVisits [] (VisitOp.clear sid :: opsB)).2 := by
  rw [runVisits_append]
  simp [runVisits]

/-- Recogniser for delay events in a crawl trace. -/
def isSleep : Event → Bool
  | .sleep _ => true
  | _ => false

theorem crawlItems_no_sleep
    (step : String → List String → List SubtitleFile × List String × List Event)
    (hstep : ∀ d vis, ((step d vis).2.2).any isSleep = false) :
    ∀ (items : List Entry) (vis : List String),
      ((crawlItems step items vis).2.2).any isSleep = false := by
  intro items
  induction items with
  | nil => intro vis; simp [crawlItems]
  | cons e rest ih =>
    intro vis
    cases e with
    | file name url =>
      rcases hrec : crawlItems step rest vis with ⟨fs, v', tr⟩
      have h := ih vis
      rw [hrec] at h
      simp only at h
      simp only [crawlItems, hrec]
      split <;> simpa using h
    | dir path =>
      rcases h1 : step (stripSubtitlesRoot path) vis with ⟨sub, v1, tr1⟩
      rcases h2 : crawlItems step rest v1 with ⟨fs, v2, tr2⟩
      have hs := hstep (stripSubtitlesRoot path) vis
      rw [h1] at hs
      have hr := ih v1
      rw [h2] at hr
      simp only at hs hr
      simp [crawlItems, h1, h2, List.any_append, hs, hr]

theorem crawl_no_sleep (w : World) :
    ∀ (rem : Nat) (d : String) (vis : List String),
      ((fetchGitHubSubtitlesSafe w rem d vis).2.2).any isSleep = false := by
  intro rem
  induction rem with
  | zero => intro d vis; simp [fetchGitHubSubtitlesSafe]
  | succ r ih =>
    intro d vis
    by_cases hv : d ∈ vis
    · simp [fetchGitHubSubtitlesSafe, hv]
    · cases hl : w.listing d with
      | none => simp [fetchGitHubSubtitlesSafe, hv, hl, isSleep]
      | some items =>
        rcases hrec : crawlItems (fetchGitHubSubtitlesSafe w r) items (d :: vis)
          with ⟨fs, v', tr⟩
        have h := crawlItems_no_sleep (fetchGitHubSubtitlesSafe w r) ih items (d :: vis)
        rw [hrec] at h
        simp only at h
        have h2 : (Event.listing d :: tr).any isSleep = false := by
          simp [isSleep]
          simpa using h
        simpa [fetchGitHubSubtitlesSafe, hv, hl, hrec] using h2

/-- C4 counterexample: a directory with two queued subdirectories is crawled
with three consecutive listing requests and no `sleep 150` between them —
the built crawler inserts no inter-request delay. -/
theorem c4_counterexample :
    (fetchGitHubSubtitlesSafe wTest 5 "A" []).2.2 =
      [Event.listing "A", Event.listing "A/s1", Event.listing "A/s2"] ∧
    Event.sleep 150 ∉ (fetchGitHubSubtitlesSafe wTest 5 "A" []).2.2 := by decide

/-- C4 (amended): the crawler descends into queued subdirectories strictly
sequentially — the trace of a listed directory is its own listing request
followed by the concatenated traces of its entries processed in listing
order — but it inserts no delay whatsoever: no crawl trace ever contains a
`sleep` event.  (The 150 ms `setTimeout` exists only in the stale duplicate
`backgroud.ts`, which is not the build entry.) -/
theorem c4_sequential_without_delay :
    (∀ (w : World) (rem : Nat) (d : String) (vis : List String),
      ((fetchGitHubSubtitlesSafe w rem d vis).2.2).any isSleep = false) ∧
    (∀ (w : World) (rem : Nat) (d : String) (vis : List String) (items : List Entry),
      vis.contains d = false → w.listing d = some items →
      fetchGitHubSubtitlesSafe w (rem + 1) d vis =
        ((crawlItems (fetchGitHubSubtitlesSafe w rem) items (d :: vis)).1,
         (crawlItems (fetchGitHubSubtitlesSafe w rem) items (d :: vis)).2.1,
         Event.listing d :: (crawlItems (fetchGitHubSubtitlesSafe w rem) items (d :: vis)).2.2)) := by
  constructor
  · exact fun w rem d vis => crawl_no_sleep w rem d vis
  · intro w rem d vis items hv hl
    have hv' : ¬ d ∈ vis := by simpa using hv
    simp [fetchGitHubSubtitlesSafe, hv', hl]

/-- C4 witness: both parts instantiated on the two-subdirectory world. -/
theorem c4_witness :
    ((fetchGitHubSubtitlesSafe wTest 5 "A" []).2.2).any isSleep = false ∧
    fetchGitHubSubtitlesSafe wTest (4 + 1) "A" [] =
      ((crawlItems (fetchGitHubSubtitlesSafe wTest 4)
          [.dir "subtitles/A/s1", .dir "subtitles/A/s2"] ["A"]).1,
       (crawlItems (fetchGitHubSubtitlesSafe wTest 4)
          [.dir "subtitles/A/s1", .dir "subtitles/A/s2"] ["A"]).2.1,
       Event.listing "A" :: (crawlItems (fetchGitHubSubtitlesSafe wTest 4)
          [.dir "subtitles/A/s1", .dir "subtitles/A/s2"] ["A"]).2.2) :=
  ⟨c4_sequential_without_delay.1 wTest 5 "A" [],
   c4_sequential_without_delay.2 wTest 4 "A" []
     [.dir "subtitles/A/s1", .dir "subtitles/A/s2"] (by decide) (by decide)⟩

/-- Directory keys for which a listing request was issued, in trace order. -/
def listingKeys (tr : List Event) : List String :=
  tr.filterMap (fun e => match e with | .listing d => some d | _ => none)

/-- Crawl invariant: the requested keys are distinct, none of them was in
the incoming visited set, all of them are in the outgoing visited set, and
the visited set only grows. -/
def KeysOK (out : List SubtitleFile × List String × List Event) (vis : List String) : Prop :=
  (listingKeys out.2.2).Nodup ∧
  (∀ k ∈ listingKeys out.2.2, k ∉ vis ∧ k ∈ out.2.1) ∧
  vis ⊆ out.2.1

theorem crawlItems_keysOK
    (step : String → List String → List SubtitleFile × List String × List Event)
    (hstep : ∀ d vis, KeysOK (step d vis) vis) :
    ∀ (items : List Entry) (vis : List String), KeysOK (crawlItems step items vis) vis := by
  intro items
  induction items with
  | nil =>
    intro vis
    exact ⟨by simp [crawlItems, listingKeys], by simp [crawlItems, listingKeys],
      by simp [crawlItems]⟩
  | cons e rest ih =>
    intro vis
    cases e with
    | file name url =>
      rcases hrec : crawlItems step rest vis with ⟨fs, v', tr⟩
      have h := ih vis
      rw [hrec] at h
      have : crawlItems step (Entry.file name url :: rest) vis =
          (if extOf name = some "srt" then (⟨name, url⟩ :: fs, v', tr) else (fs, v', tr)) := by
        simp [crawlItems, hrec]
      rw [this]
      split <;> exact h
    | dir path =>
      rcases h1 : step (stripSubtitlesRoot path) vis with ⟨sub, v1, tr1⟩
      rcases h2 : crawlItems step rest v1 with ⟨fs, v2, tr2⟩
      have hk1 := hstep (stripSubtitlesRoot path) vis
      rw [h1] at hk1
      have hk2 := ih v1
      rw [h2] at hk2
      obtain ⟨hn1, hm1, hs1⟩ := hk1
      obtain ⟨hn2, hm2, hs2⟩ := hk2
      have hout : crawlItems step (Entry.dir path :: rest) vis = (sub ++ fs, v2, tr1 ++ tr2) := by
        simp [crawlItems, h1, h2]
      rw [hout]
      have hkeys : listingKeys (tr1 ++ tr2) = listingKeys tr1 ++ listingKeys tr2 := by
        simp [listingKeys]
      refine ⟨?_, ?_, ?_⟩
      · rw [hkeys]
        refine List.Nodup.append hn1 hn2 ?_
        intro a ha1 ha2
        exact (hm2 a ha2).1 ((hm1 a ha1).2)
      · intro k hk
        rw [hkeys] at hk
        rcases List.mem_append.mp hk with hk | hk
        · exact ⟨(hm1 k hk).1, hs2 ((hm1 k hk).2)⟩
        · exact ⟨fun hkv => (hm2 k hk).1 (hs1 hkv), (hm2 k hk).2⟩
      · exact fun x hx => hs2 (hs1 hx)

theorem crawl_keysOK (w : World) :
    ∀ (rem : Nat) (d : String) (vis : List String),
      KeysOK (fetchGitHubSubtitlesSafe w rem d vis) vis := by
  intro rem
  induction rem with
  | zero =>
    intro d vis
    exact ⟨by simp [fetchGitHubSubtitlesSafe, listingKeys],
      by simp [fetchGitHubSubtitlesSafe, listingKeys], by simp [fetchGitHubSubtitlesSafe]⟩
  | succ r ih =>
    intro d vis
    by_cases hv : d ∈ vis
    · have hout : fetchGitHubSubtitlesSafe w (r + 1) d vis = ([], vis, []) := by
        simp [fetchGitHubSubtitlesSafe, hv]
      rw [hout]
      exact ⟨by simp [listingKeys], by simp [listingKeys], fun x hx => hx⟩
    · cases hl : w.listing d with
      | none =>
        have hout : fetchGitHubSubtitlesSafe w (r + 1) d vis =
            ([], d :: vis, [Event.listing d]) := by
          simp [fetchGitHubSubtitlesSafe, hv, hl]
        rw [hout]
        refine ⟨by simp [listingKeys], ?_, fun x hx => List.mem_cons_of_mem d hx⟩
        intro k hk
        have : k = d := by simpa [listingKeys] using hk
        subst this
        exact ⟨hv, List.mem_cons_self k vis⟩
      | some items =>
        rcases hrec : crawlItems (fetchGitHubSubtitlesSafe w r) items (d :: vis)
          with ⟨fs, v', tr⟩
        have hk := crawlItems_keysOK (fetchGitHubSubtitlesSafe w r) ih items (d :: vis)
        rw [hrec] at hk
        obtain ⟨hn, hm, hs⟩ := hk
        have hout : fetchGitHubSubtitlesSafe w (r + 1) d vis =
            (fs, v', Event.listing d :: tr) := by
          simp [fetchGitHubSubtitlesSafe, hv, hl, hrec]
        rw [hout]
        have hkeys : listingKeys (Event.listing d :: tr) = d :: listingKeys tr := by
          simp [listingKeys]
        refine ⟨?_, ?_, ?_⟩
        · rw [hkeys]
          refine List.nodup_cons.mpr ⟨?_, hn⟩
          intro hd
          exact (hm d hd).1 (List.mem_cons_self d vis)
        · intro k hk
          rw [hkeys] at hk
          rcases List.mem_cons.mp hk with hk | hk
          · subst hk
            exact ⟨hv, hs (List.mem_cons_self k vis)⟩
          · refine ⟨fun hkv => (hm k hk).1 (List.mem_cons_of_mem d hkv), (hm k hk).2⟩
        · exact fun x hx => hs (List.mem_cons_of_mem d hx)

/-- C5: the depth-bounded crawl always terminates (the embedding is a total
function of the `maxDepth + 1 - depth` counter), issues at most one listing
request per directory key — the request keys of any crawl are distinct and
disjoint from the incoming visited set, because a directory is marked
visited before recursing — and returns empty immediately when the depth
bound is exceeded (`rem = 0`) or the key is already visited. -/
theorem c5_crawl_terminates_visits_once :
    ∀ (w : World) (rem : Nat) (d : String) (vis : List String),
      (listingKeys (fetchGitHubSubtitlesSafe w rem d vis).2.2).Nodup ∧
      (∀ k ∈ listingKeys (fetchGitHubSubtitlesSafe w rem d vis).2.2, k ∉ vis) ∧
      fetchGitHubSubtitlesSafe w 0 d vis = ([], vis, []) ∧
      (vis.contains d = true → fetchGitHubSubtitlesSafe w rem d vis = ([], vis, [])) := by
  intro w rem d vis
  have h := crawl_keysOK w rem d vis
  refine ⟨h.1, fun k hk => (h.2.1 k hk).1, rfl, ?_⟩
  intro hv
  have hv' : d ∈ vis := by simpa using hv
  cases rem with
  | zero => rfl
  | succ r => simp [fetchGitHubSubtitlesSafe, hv']

/-- C5 witness: concrete crawl of the cyclic-free two-subdirectory world,
plus the two immediate-return cases. -/
theorem c5_witness :
    (listingKeys (fetchGitHubSubtitlesSafe wTest 5 "A" []).2.2).Nodup ∧
    "A/s1" ∉ ([] : List String) ∧
    fetchGitHubSubtitlesSafe wTest 0 "A" [] = ([], [], []) ∧
    fetchGitHubSubtitlesSafe wTest 5 "A" ["A"] = ([], ["A"], []) :=
  ⟨(c5_crawl_terminates_visits_once wTest 5 "A" []).1,
   (c5_crawl_terminates_visits_once wTest 5 "A" []).2.1 "A/s1" (by decide),
   (c5_crawl_terminates_visits_once wTest 0 "A" []).2.2.1,
   (c5_crawl_terminates_visits_once wTest 5 "A" ["A"]).2.2.2 (by decide)⟩

/-- C6: an incoming GET_SUBS request whose title equals the most recently
accepted title, arriving less than 1000 ms after that acceptance, is
rejected outright whatever its tab id: the handler returns the empty
sentinel, performs no pipeline work (no events), and leaves the orchestrator
state — including every session's cancellation state — untouched. -/
theorem c6_debounce_rejects_identical (w : World) (s : OrchState) (title : String)
    (tabId : Nat) (now : Int) (cancelAt : Nat → Bool)
    (htitle : title = s.lastTitle) (htime : now - s.lastTimestamp < 1000) :
    handleGetSubs w s title tabId now cancelAt = (s, .ok emptyResult, []) := by
  unfold handleGetSubs admitRequest
  simp [htitle, htime]

/-- C6 witness: concrete state, 500 ms after acceptance, a different tab. -/
theorem c6_witness :
    handleGetSubs wC1
      { lastTitle := "t", lastTimestamp := 0, active := [(3, 7)], cancelledIds := [], nextId := 8 }
      "t" 5 500 (fun _ => false) =
    ({ lastTitle := "t", lastTimestamp := 0, active := [(3, 7)], cancelledIds := [], nextId := 8 },
      .ok emptyResult, []) :=
  c6_debounce_rejects_identical wC1 _ "t" 5 500 (fun _ => false) rfl (by decide)

/-- Response classifier for the amended metadata claim: the checks the
lookup itself performs before collapsing to the empty record — a body that
parses, a `data` read that does not throw, and a falsy `data?.Media`. -/
def mediaFalsyResp (r : MetaResponse) : Bool :=
  match r.body with
  | none => false
  | some json =>
    match jsGet json "data" with
    | .error _ => false
    | .ok dataV =>
      match mediaOf dataV with
      | .error _ => false
      | .ok m => !jsTruthy m

/-- C7 counterexample: `lookupAnimeMetadata` can raise.  A 2xx response whose
body is not JSON makes `res.json()` reject, and a 2xx response whose `Media`
object lacks a `title` field makes `media.title.english` throw a TypeError;
neither is caught.  (A non-2xx response does collapse to the empty record.) -/
theorem c7_counterexample :
    lookupAnimeMetadata { ok := true, body := none } = .error () ∧
    lookupAnimeMetadata { ok := true, body := some (.obj [("data", .obj [("Media",
      .obj [("synonyms", .arr [])])])]) } = .error () ∧
    lookupAnimeMetadata { ok := false, body := none } = .ok {} := by decide

/-- C7 (amended): the resolver collapses to the empty metadata record for
every non-2xx response and for every parsed body whose `data?.Media` chain
evaluates without throwing to a falsy value; but it is not exception-free —
a non-JSON body or a truthy `Media` without a `title` object raises to the
caller (see the counterexample). -/
theorem c7_lookup_collapses_to_empty (r : MetaResponse)
    (h : r.ok = false ∨ mediaFalsyResp r = true) :
    lookupAnimeMetadata r = .ok {} := by
  rcases h with h | h
  · unfold lookupAnimeMetadata
    simp [h]
  · by_cases hok : r.ok
    · unfold mediaFalsyResp at h
      unfold lookupAnimeMetadata
      simp only [hok, Bool.not_true, Bool.false_eq_true, if_false]
      cases hb : r.body with
      | none => rw [hb] at h; simp at h
      | some json =>
        rw [hb] at h
        dsimp only at h ⊢
        cases hd : jsGet json "data" with
        | error e => rw [hd] at h; simp at h
        | ok dataV =>
          rw [hd] at h
          dsimp only at h ⊢
          cases hm : mediaOf dataV with
          | error e => rw [hm] at h; simp at h
          | ok m =>
            rw [hm] at h
            dsimp only at h
            simp [h]
    · have hok' : r.ok = false := by simpa using hok
      unfold lookupAnimeMetadata
      simp [hok']

/-- C7 witness: a parsed body with a null `data` field. -/
theorem c7_witness :
    lookupAnimeMetadata { ok := true, body := some (.obj [("data", Json.null)]) } = .ok {} :=
  c7_lookup_collapses_to_empty { ok := true, body := some (.obj [("data", Json.null)]) }
    (Or.inr (by decide))

/-- C8 counterexample: for the title `"Show S0E1"` both season (`0`) and
episode (`1`) are known, and the exact season+episode regex selects
`"Show S0E1.srt"` (last conjunct), yet the matcher — whose guard is the JS
truthiness test `parsed.season && parsed.episode`, falsy at `0` — skips the
exact rule and returns `"Show 01.srt"` through the episode-only rule. -/
theorem c8_counterexample :
    (parseVideoTitle "Show S0E1").season = some 0 ∧
    (parseVideoTitle "Show S0E1").episode = some 1 ∧
    matchSubtitleFile wC1 [⟨"Show 01.srt", "u1"⟩, ⟨"Show S0E1.srt", "u2"⟩]
      (parseVideoTitle "Show S0E1") {} = (some ⟨"Show 01.srt", "u1"⟩, []) ∧
    List.find? (fun (g : SubtitleFile) => testSE 0 1 g.name)
      [⟨"Show 01.srt", "u1"⟩, ⟨"Show S0E1.srt", "u2"⟩] = some ⟨"Show S0E1.srt", "u2"⟩ := by
  decide

/-- C8 (amended): when both season and episode are known and nonzero (the
code's truthiness guard treats `0` as absent), the exact season+episode rule
is applied first: whenever some file name matches `S0*<s>E0*<e>(?!\d)`, the
matcher returns the first such file with no provider interaction, whatever
the fuzzy searcher would rank. -/
theorem c8_exact_rule_first (w : World) (files : List SubtitleFile) (parsed : ParsedTitle)
    (meta : AnimeMetadata) (s e : Nat) (f : SubtitleFile)
    (hs : parsed.season = some s) (hs0 : s ≠ 0)
    (he : parsed.episode = some e) (he0 : e ≠ 0)
    (hfind : files.find? (fun g => testSE s e g.name) = some f) :
    matchSubtitleFile w files parsed meta = (some f, []) := by
  have hne : files.isEmpty = false := by
    cases files with
    | nil => simp at hfind
    | cons a l => rfl
  unfold matchSubtitleFile
  simp [hne, hs, he, hs0, he0, hfind]

/-- C8 witness: the specification's own example — files S01E02/S01E03 with
parsed season 1, episode 2 — selects `"Show S01E02.srt"` by rule 1. -/
theorem c8_witness :
    matchSubtitleFile wC1 [⟨"Show S01E02.srt", "a"⟩, ⟨"Show S01E03.srt", "b"⟩]
      (parseVideoTitle "Show S1E2") {} = (some ⟨"Show S01E02.srt", "a"⟩, []) :=
  c8_exact_rule_first wC1 _ _ {} 1 2 _ (by decide) (by decide) (by decide) (by decide)
    (by decide)

/-!
Soundness of the continuation-passing matcher combinators: a successful
match decomposes the input, which yields the no-trailing-digit guarantee of
the episode-only rule.
-/

theorem litList_sound (ds : List Char) (k : List Char → Bool) :
    ∀ cs, litList ds k cs = true → ∃ rest, cs = ds ++ rest ∧ k rest = true := by
  induction ds with
  | nil => intro cs h; exact ⟨cs, rfl, h⟩
  | cons d ds ih =>
    intro cs h
    cases cs with
    | nil => simp [litList] at h
    | cons c rest =>
      simp only [litList, Bool.and_eq_true, decide_eq_true_eq] at h
      obtain ⟨hc, h2⟩ := h
      obtain ⟨r, hr, hk⟩ := ih rest h2
      exact ⟨r, by rw [hc, hr]; simp, hk⟩

theorem zerosC_sound (k : List Char → Bool) :
    ∀ cs, zerosC k cs = true → ∃ pre rest, cs = pre ++ rest ∧ k rest = true := by
  intro cs
  induction cs with
  | nil => intro h; exact ⟨[], [], rfl, by simpa [zerosC] using h⟩
  | cons c r ih =>
    intro h
    simp only [zerosC, Bool.or_eq_true, Bool.and_eq_true] at h
    rcases h with h | ⟨_, h⟩
    · exact ⟨[], c :: r, rfl, h⟩
    · obtain ⟨p, rest, hpr, hk⟩ := ih h
      exact ⟨c :: p, rest, by rw [List.cons_append, hpr], hk⟩

theorem digitsMoreC_sound (k : List Char → Bool) :
    ∀ cs, digitsMoreC k cs = true → ∃ pre rest, cs = pre ++ rest ∧ k rest = true := by
  intro cs
  induction cs with
  | nil => intro h; exact ⟨[], [], rfl, by simpa [digitsMoreC] using h⟩
  | cons c r ih =>
    intro h
    simp only [digitsMoreC, Bool.or_eq_true, Bool.and_eq_true] at h
    rcases h with h | ⟨_, h⟩
    · exact ⟨[], c :: r, rfl, h⟩
    · obtain ⟨p, rest, hpr, hk⟩ := ih h
      exact ⟨c :: p, rest, by rw [List.cons_append, hpr], hk⟩

theorem digitsPlusC_sound (k : List Char → Bool) (cs : List Char)
    (h : digitsPlusC k cs = true) : ∃ pre rest, cs = pre ++ rest ∧ k rest = true := by
  cases cs with
  | nil => simp [digitsPlusC] at h
  | cons c r =>
    simp only [digitsPlusC, Bool.and_eq_true] at h
    obtain ⟨p, rest, hpr, hk⟩ := digitsMoreC_sound k r h.2
    exact ⟨c :: p, rest, by rw [List.cons_append, hpr], hk⟩

theorem litCIc_sound (pat : Char) (k : List Char → Bool) (cs : List Char)
    (h : litCIc pat k cs = true) : ∃ c rest, cs = c :: rest ∧ k rest = true := by
  cases cs with
  | nil => simp [litCIc] at h
  | cons c rest =>
    simp only [litCIc, Bool.and_eq_true] at h
    exact ⟨c, rest, rfl, h.2⟩

theorem epCore_sound (e : Nat) (cs : List Char) (h : epCore e cs = true) :
    ∃ pre rest, cs = pre ++ digitsOf e ++ rest ∧ notDigitAhead rest = true := by
  obtain ⟨p, r0, hpr, hk⟩ := zerosC_sound _ cs h
  obtain ⟨rest, hr, hnd⟩ := litList_sound (digitsOf e) notDigitAhead r0 hk
  exact ⟨p, rest, by rw [hpr, hr, List.append_assoc], hnd⟩

theorem epHere_sound (e : Nat) (cs : List Char) (h : epHere e cs = true) :
    ∃ pre rest, cs = pre ++ digitsOf e ++ rest ∧ notDigitAhead rest = true := by
  simp only [epHere, Bool.or_eq_true] at h
  rcases h with h | h
  · obtain ⟨c1, r1, hc1, h1⟩ := litCIc_sound 's' _ cs h
    obtain ⟨p2, r2, hp2, h2⟩ := digitsPlusC_sound _ r1 h1
    obtain ⟨c3, r3, hc3, h3⟩ := litCIc_sound 'e' _ r2 h2
    obtain ⟨p4, rest, hp4, hnd⟩ := epCore_sound e r3 h3
    refine ⟨c1 :: (p2 ++ c3 :: p4), rest, ?_, hnd⟩
    rw [hc1, hp2, hc3, hp4]
    simp
  · exact epCore_sound e cs h

theorem anySuffix_sound (p : List Char → Bool) :
    ∀ cs, anySuffix p cs = true → ∃ a b, cs = a ++ b ∧ p b = true := by
  intro cs
  induction cs with
  | nil => intro h; exact ⟨[], [], rfl, by simpa [anySuffix] using h⟩
  | cons c r ih =>
    intro h
    simp only [anySuffix, Bool.or_eq_true] at h
    rcases h with h | h
    · exact ⟨[], c :: r, rfl, h⟩
    · obtain ⟨a, b, hab, hb⟩ := ih h
      exact ⟨c :: a, b, by rw [List.cons_append, hab], hb⟩

theorem testEp_sound (e : Nat) (name : String) (h : testEp e name = true) :
    ∃ pre rest, name.toList = pre ++ digitsOf e ++ rest ∧ notDigitAhead rest = true := by
  obtain ⟨a, b, hab, hb⟩ := anySuffix_sound (epHere e) name.toList h
  obtain ⟨p, rest, hpr, hnd⟩ := epHere_sound e b hb
  exact ⟨a ++ p, rest, by rw [hab, hpr]; simp, hnd⟩

/-- C9: the episode-only rule never produces a trailing-digit false
positive.  Whenever its regex accepts a file name, the name contains the
decimal episode number at a position not followed by a further digit; in
particular, for files `E1`/`E10` and parsed episode 1 with season unknown,
the matcher returns `"Show E1.srt"` — and `"Show E10.srt"` is not even
accepted by the rule's regex. -/
theorem c9_episode_rule_trailing_digit_guard :
    (∀ (e : Nat) (name : String), testEp e name = true →
      ∃ pre rest, name.toList = pre ++ digitsOf e ++ rest ∧ notDigitAhead rest = true) ∧
    matchSubtitleFile wC1 [⟨"Show E1.srt", "u1"⟩, ⟨"Show E10.srt", "u2"⟩]
      { title := "Show", season := none, episode := some 1, episodeTitle := none, year := none }
      {} = (some ⟨"Show E1.srt", "u1"⟩, []) ∧
    testEp 1 "Show E10.srt" = false :=
  ⟨fun e name h => testEp_sound e name h, by decide, by decide⟩

/-- C9 witness: the accepted file really does contain the episode number
with no digit after it. -/
theorem c9_witness :
    ∃ pre rest, ("Show E1.srt").toList = pre ++ digitsOf 1 ++ rest ∧
      notDigitAhead rest = true :=
  c9_episode_rule_trailing_digit_guard.1 1 "Show E1.srt" (by decide)

end Kuraji
